import Mathlib

/-!
Shallow embedding of the NSE stock breakout scanner (`app.py`).

The scanner fetches daily OHLCV bars per symbol, computes EMA/RSI/MACD
indicators with pandas, scores five boolean breakout rules, filters by a
minimum signal count and returns the qualifying results sorted by
descending signal count.

Modelling decisions:
* pandas float values are modelled by `ℚ`; where the RSI pipeline can
  produce IEEE non-finite values (±inf from division by zero, NaN from
  0/0 or an incomplete rolling window) we use the extended type `RVal`.
* the external data provider (`yf.Ticker(...).history(...)`) is a
  parameter `fetch : String → Option (List Bar)`; `none` covers both a
  provider failure (the broad `except` in `analyze_stock` returns `None`)
  and an unavailable symbol.
* wall-clock timestamps (`datetime.now().isoformat()`) are threaded
  through as an opaque `now : String` parameter.
* Python `str` operations are implemented over `List Char` by structural
  recursion (Lean core's `String` functions do not reduce in the kernel);
  on the ASCII symbol names the scanner handles they agree with Python.
-/

/-- One row of the fetched history. The scanner reads only the `Close`
and `Volume` columns of the dataframe, so only those are modelled. -/
structure Bar where
  close : ℚ
  volume : ℚ
deriving DecidableEq, Repr

/-- An IEEE-754-like value as produced by the pandas RSI pipeline:
finite, positive/negative infinity, or NaN. Signed zero is not
distinguished (the pipeline never distinguishes it either). -/
inductive RVal where
  | nan : RVal
  | inf : RVal
  | ninf : RVal
  | fin : ℚ → RVal
deriving DecidableEq, Repr

namespace RVal

/-- Float division of two values (`gain / loss` in `calculate_rsi`):
`x/0 = ±inf` for `x ≠ 0`, `0/0 = NaN`, `x/±inf = 0`, NaN propagates. -/
def divR : RVal → RVal → RVal
  | nan, _ => nan
  | _, nan => nan
  | inf, inf => nan
  | inf, ninf => nan
  | ninf, inf => nan
  | ninf, ninf => nan
  | inf, fin y => if y < 0 then ninf else inf
  | ninf, fin y => if y < 0 then inf else ninf
  | fin _, inf => fin 0
  | fin _, ninf => fin 0
  | fin x, fin y =>
    if y = 0 then (if x = 0 then nan else if 0 < x then inf else ninf)
    else fin (x / y)

/-- Addition `q + v` for a finite scalar `q` (the `1 + rs` step). -/
def addQ (q : ℚ) : RVal → RVal
  | nan => nan
  | inf => inf
  | ninf => ninf
  | fin x => fin (q + x)

/-- Division `q / v` for a finite scalar `q` (the `100 / (1 + rs)` step). -/
def divInto (q : ℚ) : RVal → RVal
  | nan => nan
  | inf => fin 0
  | ninf => fin 0
  | fin x =>
    if x = 0 then (if q = 0 then nan else if 0 < q then inf else ninf)
    else fin (q / x)

/-- Subtraction `q - v` for a finite scalar `q` (the `100 - ...` step). -/
def subFrom (q : ℚ) : RVal → RVal
  | nan => nan
  | inf => ninf
  | ninf => inf
  | fin x => fin (q - x)

/-- Comparison `v > q`: comparisons against NaN are false. -/
def gtQ : RVal → ℚ → Bool
  | nan, _ => false
  | inf, _ => true
  | ninf, _ => false
  | fin x, q => decide (q < x)

/-- Comparison `v < q`: comparisons against NaN are false. -/
def ltQ : RVal → ℚ → Bool
  | nan, _ => false
  | inf, _ => false
  | ninf, _ => true
  | fin x, q => decide (x < q)

end RVal

/-- Python's `round(x, 2)` modelled as exact rational rounding to two
decimal places (Mathlib's `round`, half away from the lower integer; the
binary-float round-half-even corner cases are not modelled, and no
verified property depends on a tie). -/
def round2 (q : ℚ) : ℚ := (round (q * 100) : ℤ) / 100

/-- Rounding `round(x, 2)` on a possibly non-finite value; non-finite values pass
through (a non-finite value never actually reaches `round` because the
only rounded `RVal` is an RSI, which is NaN or finite). -/
def round2R : RVal → RVal
  | RVal.nan => RVal.nan
  | RVal.inf => RVal.inf
  | RVal.ninf => RVal.ninf
  | RVal.fin x => RVal.fin (round2 x)

/-- Python's `int(x)` on a float: truncation toward zero. -/
def truncInt (q : ℚ) : ℤ := q.num / q.den

/-! ### Python string operations over `List Char` -/

/-- Python `s.split(',')` on the character list: split on every comma,
keeping empty pieces (`"a,,b" → ["a","","b"]`, `"" → [""]`). -/
def splitComma : List Char → List (List Char)
  | [] => [[]]
  | c :: cs =>
    let r := splitComma cs
    if c = ',' then [] :: r
    else (c :: r.headD []) :: r.tail

/-- Python `s.strip()`: remove leading and trailing whitespace. -/
def pyStrip (s : List Char) : List Char :=
  ((s.dropWhile Char.isWhitespace).reverse.dropWhile Char.isWhitespace).reverse

/-- Python `s.upper()`; `Char.toUpper` agrees with it on ASCII, which is
all the scanner's symbol names use. -/
def pyUpper (s : List Char) : List Char := s.map Char.toUpper

/-- Python `'.NS' in s`: substring containment of the fixed pattern. -/
def containsNS : List Char → Bool
  | '.' :: 'N' :: 'S' :: _ => true
  | _ :: rest => containsNS rest
  | [] => false

/-- Python `s.replace('.NS', '')`: remove every (left-to-right,
non-overlapping) occurrence of the fixed pattern. -/
def stripNS : List Char → List Char
  | '.' :: 'N' :: 'S' :: rest => stripNS rest
  | c :: rest => c :: stripNS rest
  | [] => []

/-- Python `s.strip().upper()` applied to one comma-separated piece, as a
`String → String` step of the symbol normalisation. -/
def normPiece (s : String) : String := (pyUpper (pyStrip s.data)).asString

/-! ### Indicator engine -/

/-- One step of the `adjust=False` exponential moving average:
`ema[t] = α·close[t] + (1-α)·ema[t-1]`, threaded through the tail of the
close series. -/
def emaFrom (α : ℚ) (prev : ℚ) : List ℚ → List ℚ
  | [] => []
  | c :: cs => (α * c + (1 - α) * prev) :: emaFrom α (α * c + (1 - α) * prev) cs

/-- Pandas `Series.ewm(span, adjust=False).mean()` with smoothing factor `α`:
seeded with the first value, then the recursive update. -/
def emaList (α : ℚ) : List ℚ → List ℚ
  | [] => []
  | c :: cs => c :: emaFrom α c cs

/-- Function `calculate_ema(data, period)`: EMA of the close series with
`α = 2/(period+1)` (pandas `span=period`). -/
def calculate_ema (closes : List ℚ) (period : ℚ) : List ℚ :=
  emaList (2 / (period + 1)) closes

/-- Pandas `Series.diff()`: entry 0 is NaN, entry `i` is `x[i] - x[i-1]`. -/
def diffFrom (prev : ℚ) : List ℚ → List RVal
  | [] => []
  | c :: cs => RVal.fin (c - prev) :: diffFrom c cs

/-- Pandas `data['Close'].diff()` over the whole close series. -/
def diffList : List ℚ → List RVal
  | [] => []
  | c :: cs => RVal.nan :: diffFrom c cs

/-- Pandas `delta.where(delta > 0, 0)`: keep positive deltas, everything else
(including the leading NaN, for which `NaN > 0` is false) becomes 0. -/
def whereGt0 : RVal → ℚ
  | RVal.fin x => if 0 < x then x else 0
  | RVal.inf => 0
  | RVal.ninf => 0
  | RVal.nan => 0

/-- Pandas `-delta.where(delta < 0, 0)`: keep negated negative deltas,
everything else (including the leading NaN) becomes 0. The IEEE negative
zero produced by negating 0 is not distinguished from 0. -/
def whereLt0neg : RVal → ℚ
  | RVal.fin x => if x < 0 then -x else 0
  | RVal.inf => 0
  | RVal.ninf => 0
  | RVal.nan => 0

/-- The trailing mean ending at index `i` for `rolling(window=w).mean()`:
NaN while fewer than `w` observations are available, else the arithmetic
mean of entries `i+1-w .. i`. -/
def windowMean (w : ℕ) (xs : List ℚ) (i : ℕ) : RVal :=
  if i + 1 < w then RVal.nan
  else RVal.fin (((xs.take (i + 1)).drop (i + 1 - w)).sum / (w : ℚ))

/-- Pandas `Series.rolling(window=w).mean()` (default `min_periods = w`). -/
def rollingMean (w : ℕ) (xs : List ℚ) : List RVal :=
  (List.range xs.length).map (windowMean w xs)

/-- The rolling mean of gains in `calculate_rsi`. -/
def gainSeries (closes : List ℚ) (period : ℕ) : List RVal :=
  rollingMean period ((diffList closes).map whereGt0)

/-- The rolling mean of losses in `calculate_rsi`. -/
def lossSeries (closes : List ℚ) (period : ℕ) : List RVal :=
  rollingMean period ((diffList closes).map whereLt0neg)

/-- The final RSI formula `100 - (100 / (1 + rs))` on one `rs` value. -/
def rsiPoint (rs : RVal) : RVal :=
  RVal.subFrom 100 (RVal.divInto 100 (RVal.addQ 1 rs))

/-- Function `calculate_rsi(data, period=14)`: rolling mean of gains and of
losses, `rs = gain/loss` (float semantics: `x/0 = inf` for `x > 0`,
`0/0 = NaN`), then `rsi = 100 - 100/(1+rs)` pointwise. -/
def calculate_rsi (closes : List ℚ) (period : ℕ) : List RVal :=
  (List.zipWith RVal.divR (gainSeries closes period) (lossSeries closes period)).map rsiPoint

/-- Function `calculate_macd(data)`: `(macd, signal)` where
`macd = EMA(12) - EMA(26)` of the closes and `signal = EMA(9)` of the
macd line. -/
def calculate_macd (closes : List ℚ) : List ℚ × List ℚ :=
  let exp1 := emaList (2 / (12 + 1)) closes
  let exp2 := emaList (2 / (26 + 1)) closes
  let macd := List.zipWith (fun a b => a - b) exp1 exp2
  (macd, emaList (2 / (9 + 1)) macd)

/-- Pandas `hist['Volume'].tail(20).mean()` generalised to `tail(n)`: mean of
the last `n` entries. An empty list would give pandas NaN; modelled as
`0/0 = 0`, unreachable because the scanner requires at least 50 bars. -/
def tailMean (n : ℕ) (xs : List ℚ) : ℚ :=
  let t := xs.drop (xs.length - n)
  t.sum / (t.length : ℚ)

/-! ### Scoring rule set -/

/-- Rule 1: `latest['Close'] > latest['EMA_20']`. -/
def priceRule (close ema20 : ℚ) : Bool := decide (close > ema20)

/-- Rule 2: the chained comparison
`latest['EMA_20'] > latest['EMA_50'] > latest['EMA_200']`. -/
def emaAlignRule (ema20 ema50 ema200 : ℚ) : Bool :=
  decide (ema20 > ema50 ∧ ema50 > ema200)

/-- Rule 3: the chained comparison `30 < latest['RSI'] < 70`; any
comparison with NaN is false. -/
def rsiRule (rsi : RVal) : Bool := rsi.gtQ 30 && rsi.ltQ 70

/-- Rule 4: `latest['MACD'] > latest['Signal']`. -/
def macdRule (macd sig : ℚ) : Bool := decide (macd > sig)

/-- Rule 5: `latest['Volume'] > hist['Volume'].tail(20).mean() * 1.5`. -/
def volumeRule (vol avgVol : ℚ) : Bool := decide (vol > avgVol * (3 / 2))

/-- The five rule names in evaluation order. -/
def ruleNames : List String :=
  ["Price above EMA 20", "Bullish EMA alignment", "RSI in healthy range",
   "MACD bullish crossover", "High volume breakout"]

/-- Lines 56–78 of `analyze_stock`: starting from `signals = []` and
`signal_count = 0`, each triggered rule appends its name and increments
the count, in the fixed evaluation order. -/
def scoreSignals (s1 s2 s3 s4 s5 : Bool) : List String × ℕ :=
  let signals : List String := []
  let count : ℕ := 0
  let signals := if s1 then signals ++ ["Price above EMA 20"] else signals
  let count := if s1 then count + 1 else count
  let signals := if s2 then signals ++ ["Bullish EMA alignment"] else signals
  let count := if s2 then count + 1 else count
  let signals := if s3 then signals ++ ["RSI in healthy range"] else signals
  let count := if s3 then count + 1 else count
  let signals := if s4 then signals ++ ["MACD bullish crossover"] else signals
  let count := if s4 then count + 1 else count
  let signals := if s5 then signals ++ ["High volume breakout"] else signals
  let count := if s5 then count + 1 else count
  (signals, count)

/-! ### Per-symbol analysis and scan orchestration -/

/-- The record returned by `analyze_stock` / one entry of `results`. -/
structure ScanResult where
  symbol : String
  name : String
  price : ℚ
  ema_20 : ℚ
  ema_50 : ℚ
  ema_200 : ℚ
  rsi : RVal
  macd : ℚ
  macd_signal : ℚ
  volume : ℤ
  avg_volume : ℤ
  signals : List String
  signal_count : ℕ
  timestamp : String
deriving DecidableEq, Repr

/-- Function `analyze_stock(symbol)`: fetch a year of history (a `none` fetch
models both provider failure and the broad `except` returning `None`),
reject empty or short histories, compute the indicators on the full
series, score the five rules on the latest bar and build the result
record. The `getLastD` defaults are unreachable: the series is nonempty
(at least 50 bars) and every derived series has the same length. -/
def analyze_stock (fetch : String → Option (List Bar)) (now : String)
    (symbol : String) : Option ScanResult :=
  match fetch symbol with
  | none => none
  | some hist =>
    if hist.isEmpty ∨ hist.length < 50 then none
    else
      let closes := hist.map Bar.close
      let volumes := hist.map Bar.volume
      let ema20 := (calculate_ema closes 20).getLastD 0
      let ema50 := (calculate_ema closes 50).getLastD 0
      let ema200 := (calculate_ema closes 200).getLastD 0
      let rsi := (calculate_rsi closes 14).getLastD RVal.nan
      let macd := (calculate_macd closes).1.getLastD 0
      let sig := (calculate_macd closes).2.getLastD 0
      let close := closes.getLastD 0
      let vol := volumes.getLastD 0
      let avgVol := tailMean 20 volumes
      let scored := scoreSignals (priceRule close ema20)
        (emaAlignRule ema20 ema50 ema200) (rsiRule rsi)
        (macdRule macd sig) (volumeRule vol avgVol)
      some {
        symbol := symbol
        name := (stripNS symbol.data).asString
        price := round2 close
        ema_20 := round2 ema20
        ema_50 := round2 ema50
        ema_200 := round2 ema200
        rsi := round2R rsi
        macd := round2 macd
        macd_signal := round2 sig
        volume := truncInt vol
        avg_volume := truncInt avgVol
        signals := scored.1
        signal_count := scored.2
        timestamp := now
      }

/-- The built-in default NSE symbol list. -/
def DEFAULT_STOCKS : List String :=
  ["RELIANCE.NS", "TCS.NS", "HDFCBANK.NS", "INFY.NS", "ICICIBANK.NS",
   "HINDUNILVR.NS", "ITC.NS", "SBIN.NS", "BHARTIARTL.NS", "KOTAKBANK.NS",
   "LT.NS", "AXISBANK.NS", "ASIANPAINT.NS", "MARUTI.NS", "HCLTECH.NS",
   "WIPRO.NS", "ULTRACEMCO.NS", "TITAN.NS", "NESTLEIND.NS", "BAJFINANCE.NS"]

/-- Lines 117–122 of `breakout_scan`: a truthy (non-empty) `symbols`
parameter is split on commas, each piece stripped and upper-cased; if not
every piece contains `".NS"`, the suffix is appended to exactly the
pieces not containing it. An empty parameter falls through to the
default list. -/
def parseSymbols (symbols_param : String) : List String :=
  if symbols_param = "" then DEFAULT_STOCKS
  else
    let symbols := (splitComma symbols_param.data).map (fun s => normPiece s.asString)
    if ¬ (symbols.all (fun s => containsNS s.data)) then
      symbols.map (fun s => if ¬ containsNS s.data then s ++ ".NS" else s)
    else symbols

/-- The qualifying results in input order (lines 124–128): per-symbol
analysis, keeping a result exactly when it exists and its signal count
reaches `min_signals`. -/
def scanCandidates (fetch : String → Option (List Bar)) (now : String)
    (symbols_param : Option String) (min_signals_param : Option ℤ) : List ScanResult :=
  let min_signals := min_signals_param.getD 2
  ((parseSymbols (symbols_param.getD "")).filterMap (analyze_stock fetch now)).filter
    (fun a => decide (min_signals ≤ (a.signal_count : ℤ)))

/-- The comparison handed to the sort on line 130:
`sort(key=..., reverse=True)` is a stable sort by descending
`signal_count`. -/
def scanLe (a b : ScanResult) : Bool := decide (b.signal_count ≤ a.signal_count)

/-- The JSON body returned by `breakout_scan`. -/
structure ScanResponse where
  status : String
  scan_time : String
  stocks_scanned : ℕ
  breakouts_found : ℕ
  min_signals : ℤ
  results : List ScanResult
deriving DecidableEq, Repr

/-- Endpoint `GET /breakout_scan`: `request.args.get('symbols', '')` yields `""`
for an absent parameter, `int(request.args.get('min_signals', 2))` is
modelled as an already-parsed optional integer defaulting to 2. The
qualifying results are collected in input order and stably sorted by
descending signal count. -/
def breakout_scan (fetch : String → Option (List Bar)) (now : String)
    (symbols_param : Option String) (min_signals_param : Option ℤ) : ScanResponse :=
  let min_signals := min_signals_param.getD 2
  let symbols := parseSymbols (symbols_param.getD "")
  let results := (scanCandidates fetch now symbols_param min_signals_param).mergeSort scanLe
  { status := "success"
    scan_time := now
    stocks_scanned := symbols.length
    breakouts_found := results.length
    min_signals := min_signals
    results := results }

/-! ### Spec-side comparison definition and concrete fixtures -/

/-- Test of `".NS"` as a strict suffix (ends-with) (ends-with), for comparison with the
code's substring test. -/
def endsWithNS (s : List Char) : Bool :=
  match s.reverse with
  | 'S' :: 'N' :: '.' :: _ => true
  | _ => false

/-- The symbol normalisation as the spec for C9 words it: split on
commas, strip, upper-case, and append the market suffix `".NS"` to every
identifier lacking it (i.e. not ending with it); absent parameter gives
the default list. Written from the spec's words for comparison with
`parseSymbols`, which is translated from the code. -/
def parseSymbolsSuffixSpec (symbols_param : String) : List String :=
  if symbols_param = "" then DEFAULT_STOCKS
  else
    ((splitComma symbols_param.data).map (fun s => normPiece s.asString)).map
      (fun s => if endsWithNS s.data then s else s ++ ".NS")

/-- A fetch in which every symbol resolves to an empty history. -/
def emptyFetch : String → Option (List Bar) := fun _ => some []

/-- A fetch in which every provider lookup fails. -/
def failFetch : String → Option (List Bar) := fun _ => none

/-- Fifty bars of constant price 10 and constant volume 100. -/
def constBars : List Bar := List.replicate 50 { close := 10, volume := 100 }

/-- A fetch in which every symbol resolves to `constBars`. -/
def constFetch : String → Option (List Bar) := fun _ => some constBars

/-- The qualifying results of a two-symbol scan over `constFetch` with
`min_signals = 0`: two results with equal signal counts, used to witness
the tie-stability of the sort. -/
def tieCands : List ScanResult := scanCandidates constFetch "t" (some "AA,AB") (some 0)

/-- A default record for `List.getD` on `tieCands` (never reached: the
indices used are in bounds). -/
def dummyResult : ScanResult :=
  { symbol := "", name := "", price := 0, ema_20 := 0, ema_50 := 0, ema_200 := 0,
    rsi := RVal.nan, macd := 0, macd_signal := 0, volume := 0, avg_volume := 0,
    signals := [], signal_count := 0, timestamp := "" }

/-- Fifty bars with strictly increasing closes `1, 2, …, 50` (constant
volume): the trailing 14-bar mean loss is zero. -/
def incBars : List Bar := (List.range 50).map (fun i => { close := (i : ℚ) + 1, volume := 1000 })

/-- A fetch in which every symbol resolves to `incBars`. -/
def incFetch : String → Option (List Bar) := fun _ => some incBars

/-! ### Helper lemmas -/

theorem emaFrom_length (α prev : ℚ) (cs : List ℚ) : (emaFrom α prev cs).length = cs.length := by
  induction cs generalizing prev with
  | nil => rfl
  | cons c cs ih => simp [emaFrom, ih]

theorem emaFrom_getD (α : ℚ) :
    ∀ (cs : List ℚ) (prev : ℚ) (t : ℕ), t < cs.length →
      (emaFrom α prev cs).getD t 0 =
        α * cs.getD t 0 + (1 - α) * ((prev :: emaFrom α prev cs).getD t 0)
  | [], _, t, h => absurd h (by simp)
  | c :: cs, prev, 0, _ => rfl
  | c :: cs, prev, t + 1, h => by
    have ih := emaFrom_getD α cs (α * c + (1 - α) * prev) t (by simpa using h)
    simpa [emaFrom, List.getD_cons_succ] using ih

theorem emaList_getD_zero (α : ℚ) (c : ℚ) (cs : List ℚ) :
    (emaList α (c :: cs)).getD 0 0 = c := rfl

theorem emaList_getD_succ (α : ℚ) (closes : List ℚ) (t : ℕ) (h : t + 1 < closes.length) :
    (emaList α closes).getD (t + 1) 0 =
      α * closes.getD (t + 1) 0 + (1 - α) * (emaList α closes).getD t 0 := by
  match closes with
  | [] => exact absurd h (by simp)
  | c :: cs =>
    have := emaFrom_getD α cs c t (by simpa using h)
    simpa [emaList, List.getD_cons_succ] using this

theorem emaFrom_replicate (α c : ℚ) : ∀ n, emaFrom α c (List.replicate n c) = List.replicate n c
  | 0 => rfl
  | n + 1 => by
    have hc : α * c + (1 - α) * c = c := by ring
    simp only [List.replicate, emaFrom, hc, emaFrom_replicate α c n]

theorem emaList_replicate (α c : ℚ) (n : ℕ) :
    emaList α (List.replicate n c) = List.replicate n c := by
  cases n with
  | zero => rfl
  | succ n => simp only [List.replicate, emaList, emaFrom_replicate]

theorem getLastD_replicate (c : ℚ) (d : ℚ) : ∀ n, n ≠ 0 → (List.replicate n c).getLastD d = c
  | 0, h => absurd rfl h
  | 1, _ => rfl
  | n + 2, _ => by
    rw [List.replicate, List.getLastD_cons]
    exact getLastD_replicate c c (n + 1) n.succ_ne_zero

theorem calculate_ema_replicate_getLastD (p : ℚ) (c : ℚ) (n : ℕ) (hn : n ≠ 0) :
    (calculate_ema (List.replicate n c) p).getLastD 0 = c := by
  rw [calculate_ema, emaList_replicate]
  exact getLastD_replicate c 0 n hn

/-! ### Claim theorems (with their witnesses) -/

/-- C4: the EMA computed by `calculate_ema` follows the recurrence
`ema[0] = close[0]`, `ema[t] = α·close[t] + (1-α)·ema[t-1]` with
`α = 2/(period+1)`, and consequently on a constant close series of value
`c` over `n ≥ 200` bars the latest EMA(20), EMA(50) and EMA(200) all
equal `c`. -/
theorem C4_ema_recurrence (p : ℚ) (c : ℚ) (cs : List ℚ) (t : ℕ)
    (ht : t + 1 < (c :: cs).length) (n : ℕ) (hn : 200 ≤ n) (v : ℚ) :
    (calculate_ema (c :: cs) p).getD 0 0 = c ∧
    (calculate_ema (c :: cs) p).getD (t + 1) 0 =
      (2 / (p + 1)) * (c :: cs).getD (t + 1) 0 +
        (1 - 2 / (p + 1)) * (calculate_ema (c :: cs) p).getD t 0 ∧
    (calculate_ema (List.replicate n v) 20).getLastD 0 = v ∧
    (calculate_ema (List.replicate n v) 50).getLastD 0 = v ∧
    (calculate_ema (List.replicate n v) 200).getLastD 0 = v := by
  have hn0 : n ≠ 0 := by omega
  exact ⟨emaList_getD_zero _ c cs, emaList_getD_succ _ (c :: cs) t ht,
    calculate_ema_replicate_getLastD 20 v n hn0,
    calculate_ema_replicate_getLastD 50 v n hn0,
    calculate_ema_replicate_getLastD 200 v n hn0⟩

theorem C4_witness :
    (0 : ℕ) + 1 < ([(1 : ℚ), 2] : List ℚ).length ∧ 200 ≤ 200 ∧
    ((calculate_ema [(1 : ℚ), 2] 20).getD 0 0 = 1 ∧
     (calculate_ema [(1 : ℚ), 2] 20).getD 1 0 =
       (2 / (20 + 1)) * ([(1 : ℚ), 2] : List ℚ).getD 1 0 +
         (1 - 2 / (20 + 1)) * (calculate_ema [(1 : ℚ), 2] 20).getD 0 0 ∧
     (calculate_ema (List.replicate 200 (3 : ℚ)) 20).getLastD 0 = 3 ∧
     (calculate_ema (List.replicate 200 (3 : ℚ)) 50).getLastD 0 = 3 ∧
     (calculate_ema (List.replicate 200 (3 : ℚ)) 200).getLastD 0 = 3) :=
  ⟨by decide, by decide, C4_ema_recurrence 20 1 [2] 0 (by decide) 200 (by decide) 3⟩

/-- C6: the bullish-EMA-alignment rule triggers exactly when the
chained strict comparisons `ema20 > ema50 > ema200` both hold; in
particular it is false whenever `ema50 ≤ ema200`, even if
`ema20 > ema200`. -/
theorem C6_ema_alignment (e20 e50 e200 : ℚ) (_h1 : e200 < e20) (h2 : e50 ≤ e200) :
    (∀ a b c : ℚ, emaAlignRule a b c = true ↔ (a > b ∧ b > c)) ∧
    emaAlignRule e20 e50 e200 = false := by
  refine ⟨fun a b c => by simp [emaAlignRule], ?_⟩
  simp only [emaAlignRule, decide_eq_false_iff_not]
  exact fun h => absurd h.2 (not_lt.mpr h2)

theorem C6_witness :
    (2 : ℚ) < 3 ∧ (1 : ℚ) ≤ 2 ∧
    ((∀ a b c : ℚ, emaAlignRule a b c = true ↔ (a > b ∧ b > c)) ∧
      emaAlignRule 3 1 2 = false) :=
  ⟨by norm_num, by norm_num, C6_ema_alignment 3 1 2 (by norm_num) (by norm_num)⟩

/-- C10: supplying `symbols=` with an empty value behaves exactly as
omitting the parameter: the same response (over the default 20-symbol
list) is produced. -/
theorem C10_empty_param (fetch : String → Option (List Bar)) (now : String)
    (mp : Option ℤ) :
    breakout_scan fetch now (some "") mp = breakout_scan fetch now none mp := rfl

/-- Counterexample to C9: the code tests `'.NS' in s` — substring
containment — not a suffix. For `symbols=abc.nse` the normalised
identifier `"ABC.NSE"` lacks the suffix `".NS"`, so the claim's wording
would append it, but the code leaves it unchanged because `".NS"` occurs
as a substring. -/
theorem C9_counterexample :
    parseSymbols "abc.nse" = ["ABC.NSE"] ∧
    endsWithNS "ABC.NSE".data = false ∧
    parseSymbolsSuffixSpec "abc.nse" = ["ABC.NSE.NS"] ∧
    parseSymbols "abc.nse" ≠ parseSymbolsSuffixSpec "abc.nse" := by decide

/-- C9 as amended: a present, non-empty `symbols` parameter is split
on commas, each piece trimmed and upper-cased, and `".NS"` appended to
exactly the pieces that do not *contain* `".NS"` as a substring (the
code's test, not a suffix test); an absent parameter selects the
built-in default list of 20 identifiers. -/
theorem C9_symbol_list (p : String) (hp : p ≠ "") :
    parseSymbols p =
      ((splitComma p.data).map (fun s => normPiece s.asString)).map
        (fun s => if containsNS s.data then s else s ++ ".NS") ∧
    (∀ (fetch : String → Option (List Bar)) (now : String) (mp : Option ℤ),
      (breakout_scan fetch now none mp).stocks_scanned = DEFAULT_STOCKS.length) ∧
    DEFAULT_STOCKS.length = 20 := by
  refine ⟨?_, fun _ _ _ => rfl, rfl⟩
  rw [parseSymbols, if_neg hp]
  set symbols := (splitComma p.data).map (fun s => normPiece s.asString) with hsym
  by_cases hall : symbols.all (fun s => containsNS s.data)
  · rw [if_neg (by simp [hall])]
    have hmap : symbols.map (fun s => if containsNS s.data then s else s ++ ".NS")
        = symbols.map id := by
      apply List.map_congr_left
      intro a ha
      rw [List.all_eq_true] at hall
      simp [hall a ha]
    rw [hmap, List.map_id]
  · rw [if_pos (by simpa using hall)]
    apply List.map_congr_left
    intro a _
    by_cases hc : containsNS a.data <;> simp [hc]

theorem C9_witness :
    "reliance, tcs.NS" ≠ "" ∧
    (parseSymbols "reliance, tcs.NS" =
      ((splitComma "reliance, tcs.NS".data).map (fun s => normPiece s.asString)).map
        (fun s => if containsNS s.data then s else s ++ ".NS") ∧
    (∀ (fetch : String → Option (List Bar)) (now : String) (mp : Option ℤ),
      (breakout_scan fetch now none mp).stocks_scanned = DEFAULT_STOCKS.length) ∧
    DEFAULT_STOCKS.length = 20) :=
  ⟨by decide, C9_symbol_list "reliance, tcs.NS" (by decide)⟩

theorem scoreSignals_spec (b1 b2 b3 b4 b5 : Bool) :
    (scoreSignals b1 b2 b3 b4 b5).2 = (scoreSignals b1 b2 b3 b4 b5).1.length ∧
    (scoreSignals b1 b2 b3 b4 b5).1.Sublist ruleNames ∧
    (scoreSignals b1 b2 b3 b4 b5).2 ≤ 5 := by
  cases b1 <;> cases b2 <;> cases b3 <;> cases b4 <;> cases b5 <;> decide

theorem analyze_stock_shape (fetch : String → Option (List Bar)) (now sym : String)
    (r : ScanResult) (h : analyze_stock fetch now sym = some r) :
    r.symbol = sym ∧
    ∃ b1 b2 b3 b4 b5, r.signals = (scoreSignals b1 b2 b3 b4 b5).1 ∧
      r.signal_count = (scoreSignals b1 b2 b3 b4 b5).2 := by
  cases hfe : fetch sym with
  | none =>
    simp only [analyze_stock, hfe] at h
    exact Option.noConfusion h
  | some hist =>
    simp only [analyze_stock, hfe] at h
    split at h
    · exact absurd h (by simp)
    · injection h with h'
      subst h'
      exact ⟨rfl, _, _, _, _, _, rfl, rfl⟩

theorem analyze_stock_eq_none_of_fetch_none (fetch : String → Option (List Bar))
    (now sym : String) (h : fetch sym = none) : analyze_stock fetch now sym = none := by
  simp only [analyze_stock, h]

theorem analyze_stock_eq_none_of_short (fetch : String → Option (List Bar))
    (now sym : String) (hist : List Bar) (h : fetch sym = some hist)
    (hlen : hist.length < 50) : analyze_stock fetch now sym = none := by
  simp only [analyze_stock, h]
  rw [if_pos (Or.inr hlen)]

theorem mem_results_iff (fetch : String → Option (List Bar)) (now : String)
    (sp : Option String) (mp : Option ℤ) (r : ScanResult) :
    r ∈ (breakout_scan fetch now sp mp).results ↔ r ∈ scanCandidates fetch now sp mp :=
  List.mem_mergeSort

theorem mem_candidates_iff (fetch : String → Option (List Bar)) (now : String)
    (sp : Option String) (mp : Option ℤ) (r : ScanResult) :
    r ∈ scanCandidates fetch now sp mp ↔
      (∃ s ∈ parseSymbols (sp.getD ""), analyze_stock fetch now s = some r) ∧
        mp.getD 2 ≤ (r.signal_count : ℤ) := by
  simp [scanCandidates, List.mem_filter, List.mem_filterMap]

theorem results_symbol_ne (fetch : String → Option (List Bar)) (now : String)
    (sp : Option String) (mp : Option ℤ) (sym : String)
    (hnone : analyze_stock fetch now sym = none) :
    ∀ r ∈ (breakout_scan fetch now sp mp).results, r.symbol ≠ sym := by
  intro r hr hsymb
  rw [mem_results_iff, mem_candidates_iff] at hr
  obtain ⟨⟨s, _, hsome⟩, -⟩ := hr
  have hs : r.symbol = s := (analyze_stock_shape fetch now s r hsome).1
  rw [hs] at hsymb
  rw [hsymb] at hsome
  rw [hnone] at hsome
  exact Option.noConfusion hsome

/-- C1: a symbol whose fetched series has fewer than 50 bars (the
empty series included) is reported as insufficient data
(`analyze_stock` yields `None`) and contributes no `ScanResult` to the
scan output. -/
theorem C1_insufficient_history (fetch : String → Option (List Bar)) (now : String)
    (sp : Option String) (mp : Option ℤ) (sym : String) (hist : List Bar)
    (hf : fetch sym = some hist) (hlen : hist.length < 50) :
    analyze_stock fetch now sym = none ∧
    ∀ r ∈ (breakout_scan fetch now sp mp).results, r.symbol ≠ sym := by
  have h := analyze_stock_eq_none_of_short fetch now sym hist hf hlen
  exact ⟨h, results_symbol_ne fetch now sp mp sym h⟩

theorem C1_witness :
    emptyFetch "RELIANCE.NS" = some [] ∧ ([] : List Bar).length < 50 ∧
    (analyze_stock emptyFetch "t" "RELIANCE.NS" = none ∧
      ∀ r ∈ (breakout_scan emptyFetch "t" none none).results, r.symbol ≠ "RELIANCE.NS") :=
  ⟨rfl, by decide,
    C1_insufficient_history emptyFetch "t" none none "RELIANCE.NS" [] rfl (by decide)⟩

/-- C2: the results list holds exactly the successfully analysed
records whose signal count reaches `min_signals`; since a signal count
never exceeds 5, a scan with `min_signals = 6` always returns an empty
results list. -/
theorem C2_min_signals_filter (fetch : String → Option (List Bar)) (now : String)
    (sp : Option String) (mp : Option ℤ) :
    ((breakout_scan fetch now sp mp).results).Perm (scanCandidates fetch now sp mp) ∧
    (∀ r, r ∈ (breakout_scan fetch now sp mp).results ↔
      ((∃ s ∈ parseSymbols (sp.getD ""), analyze_stock fetch now s = some r) ∧
        mp.getD 2 ≤ (r.signal_count : ℤ))) ∧
    (mp = some 6 → (breakout_scan fetch now sp mp).results = []) := by
  refine ⟨List.mergeSort_perm _ _,
    fun r => (mem_results_iff fetch now sp mp r).trans (mem_candidates_iff fetch now sp mp r),
    ?_⟩
  rintro rfl
  have hnil : scanCandidates fetch now sp (some 6) = [] := by
    rw [scanCandidates, List.filter_eq_nil_iff]
    intro a ha
    obtain ⟨s, -, hsome⟩ := List.mem_filterMap.mp ha
    obtain ⟨-, b1, b2, b3, b4, b5, -, hcnt⟩ := analyze_stock_shape fetch now s a hsome
    have h5 : a.signal_count ≤ 5 := by
      rw [hcnt]; exact (scoreSignals_spec b1 b2 b3 b4 b5).2.2
    simp only [Option.getD_some, decide_eq_true_eq, not_le]
    omega
  show (scanCandidates fetch now sp (some 6)).mergeSort scanLe = []
  rw [hnil]
  exact List.mergeSort_nil

theorem C2_witness :
    ((breakout_scan emptyFetch "t" none (some 6)).results).Perm
      (scanCandidates emptyFetch "t" none (some 6)) ∧
    (∀ r, r ∈ (breakout_scan emptyFetch "t" none (some 6)).results ↔
      ((∃ s ∈ parseSymbols ((none : Option String).getD ""),
          analyze_stock emptyFetch "t" s = some r) ∧
        (some (6 : ℤ)).getD 2 ≤ (r.signal_count : ℤ))) ∧
    ((some (6 : ℤ)) = some 6 → (breakout_scan emptyFetch "t" none (some 6)).results = []) :=
  C2_min_signals_filter emptyFetch "t" none (some 6)

theorem scanLe_trans (a b c : ScanResult) (h1 : scanLe a b = true) (h2 : scanLe b c = true) :
    scanLe a c = true := by
  simp only [scanLe, decide_eq_true_eq] at *
  omega

theorem scanLe_total (a b : ScanResult) : (scanLe a b || scanLe b a) = true := by
  simp only [scanLe, Bool.or_eq_true, decide_eq_true_eq]
  omega

/-- C3: the results list is sorted by descending signal count, and
the sort is stable: two qualifying records with equal signal counts
appear in the results in their original processing order (the order of
the input symbols list, which is the order of `scanCandidates`). -/
theorem C3_sort_stable (fetch : String → Option (List Bar)) (now : String)
    (sp : Option String) (mp : Option ℤ) (a b : ScanResult)
    (hsub : [a, b].Sublist (scanCandidates fetch now sp mp))
    (heq : a.signal_count = b.signal_count) :
    List.Pairwise (fun x y : ScanResult => y.signal_count ≤ x.signal_count)
      (breakout_scan fetch now sp mp).results ∧
    [a, b].Sublist (breakout_scan fetch now sp mp).results := by
  constructor
  · refine List.Pairwise.imp ?_
      (List.sorted_mergeSort scanLe_trans scanLe_total (scanCandidates fetch now sp mp))
    intro x y hx
    simpa [scanLe] using hx
  · refine List.sublist_mergeSort scanLe_trans scanLe_total ?_ hsub
    simp [List.pairwise_cons, scanLe, heq]

set_option maxRecDepth 10000 in
theorem C3_witness :
    [tieCands.getD 0 dummyResult, tieCands.getD 1 dummyResult].Sublist
      (scanCandidates constFetch "t" (some "AA,AB") (some 0)) ∧
    (tieCands.getD 0 dummyResult).signal_count = (tieCands.getD 1 dummyResult).signal_count ∧
    (List.Pairwise (fun x y : ScanResult => y.signal_count ≤ x.signal_count)
      (breakout_scan constFetch "t" (some "AA,AB") (some 0)).results ∧
     [tieCands.getD 0 dummyResult, tieCands.getD 1 dummyResult].Sublist
       (breakout_scan constFetch "t" (some "AA,AB") (some 0)).results) :=
  ⟨by with_unfolding_all decide, by with_unfolding_all decide,
    C3_sort_stable constFetch "t" (some "AA,AB") (some 0) _ _
      (by with_unfolding_all decide) (by with_unfolding_all decide)⟩

/-- C7: the field `stocks_scanned` counts every symbol attempted (the whole
parsed symbol list, failures included), `breakouts_found` is the length
of `results`, and a symbol whose provider lookup fails is absent from
`results` while still counted in `stocks_scanned`. -/
theorem C7_scan_counts (fetch : String → Option (List Bar)) (now : String)
    (sp : Option String) (mp : Option ℤ) (sym : String) (hf : fetch sym = none) :
    (breakout_scan fetch now sp mp).stocks_scanned = (parseSymbols (sp.getD "")).length ∧
    (breakout_scan fetch now sp mp).breakouts_found =
      (breakout_scan fetch now sp mp).results.length ∧
    ∀ r ∈ (breakout_scan fetch now sp mp).results, r.symbol ≠ sym :=
  ⟨rfl, rfl,
    results_symbol_ne fetch now sp mp sym (analyze_stock_eq_none_of_fetch_none fetch now sym hf)⟩

theorem C7_witness :
    failFetch "TCS.NS" = none ∧
    ((breakout_scan failFetch "t" none none).stocks_scanned =
      (parseSymbols ((none : Option String).getD "")).length ∧
     (breakout_scan failFetch "t" none none).breakouts_found =
      (breakout_scan failFetch "t" none none).results.length ∧
     ∀ r ∈ (breakout_scan failFetch "t" none none).results, r.symbol ≠ "TCS.NS") :=
  ⟨rfl, C7_scan_counts failFetch "t" none none "TCS.NS" rfl⟩

/-- C8: every produced `ScanResult` satisfies
`signal_count = len(signals)`, and `signals` is a sublist of the five
rule names in their fixed evaluation order. -/
theorem C8_signal_invariant (fetch : String → Option (List Bar)) (now sym : String)
    (r : ScanResult) (h : analyze_stock fetch now sym = some r) :
    r.signal_count = r.signals.length ∧ r.signals.Sublist ruleNames := by
  obtain ⟨-, b1, b2, b3, b4, b5, hsig, hcnt⟩ := analyze_stock_shape fetch now sym r h
  rw [hsig, hcnt]
  exact ⟨(scoreSignals_spec b1 b2 b3 b4 b5).1, (scoreSignals_spec b1 b2 b3 b4 b5).2.1⟩

set_option maxRecDepth 10000 in
theorem C8_witness :
    analyze_stock constFetch "t" "X" =
      some ((analyze_stock constFetch "t" "X").getD dummyResult) ∧
    (((analyze_stock constFetch "t" "X").getD dummyResult).signal_count =
      ((analyze_stock constFetch "t" "X").getD dummyResult).signals.length ∧
     ((analyze_stock constFetch "t" "X").getD dummyResult).signals.Sublist ruleNames) :=
  ⟨by with_unfolding_all decide,
    C8_signal_invariant constFetch "t" "X" _ (by with_unfolding_all decide)⟩

theorem rollingMean_length (w : ℕ) (xs : List ℚ) : (rollingMean w xs).length = xs.length := by
  simp [rollingMean]

theorem diffFrom_length (prev : ℚ) (cs : List ℚ) : (diffFrom prev cs).length = cs.length := by
  induction cs generalizing prev with
  | nil => rfl
  | cons c cs ih => simp [diffFrom, ih]

theorem diffList_length (cs : List ℚ) : (diffList cs).length = cs.length := by
  cases cs with
  | nil => rfl
  | cons c cs => simp [diffList, diffFrom_length]

theorem getLastD_map {α : Type u_1} {β : Type u_2} (f : α → β) :
    ∀ (l : List α) (d : α), (l.map f).getLastD (f d) = f (l.getLastD d)
  | [], _ => rfl
  | a :: l, d => by
    rw [List.map_cons, List.getLastD_cons, List.getLastD_cons]
    exact getLastD_map f l a

theorem getLastD_zipWith {α : Type u_1} {β : Type u_2} {γ : Type u_3} (f : α → β → γ) :
    ∀ (as : List α) (bs : List β), as.length = bs.length → ∀ (da : α) (db : β),
      (List.zipWith f as bs).getLastD (f da db) = f (as.getLastD da) (bs.getLastD db)
  | [], [], _, _, _ => rfl
  | [], _ :: _, h, _, _ => by simp at h
  | _ :: _, [], h, _, _ => by simp at h
  | a :: as, b :: bs, h, da, db => by
    rw [List.zipWith_cons_cons, List.getLastD_cons, List.getLastD_cons, List.getLastD_cons]
    exact getLastD_zipWith f as bs (by simpa using h) a b

theorem whereGt0_nonneg (v : RVal) : 0 ≤ whereGt0 v := by
  cases v with
  | fin x =>
    rw [whereGt0]
    split
    · linarith
    · exact le_refl 0
  | nan => exact le_refl 0
  | inf => exact le_refl 0
  | ninf => exact le_refl 0

theorem windowMean_cases (w : ℕ) (xs : List ℚ) (i : ℕ) (hnn : ∀ x ∈ xs, 0 ≤ x) :
    windowMean w xs i = RVal.nan ∨ ∃ q, windowMean w xs i = RVal.fin q ∧ 0 ≤ q := by
  rw [windowMean]
  split
  · exact Or.inl rfl
  · refine Or.inr ⟨_, rfl, div_nonneg ?_ (by positivity)⟩
    refine List.sum_nonneg fun x hx => ?_
    exact hnn x (List.mem_of_mem_take (List.mem_of_mem_drop hx))

theorem rollingMean_getLastD (w : ℕ) (xs : List ℚ) (hne : xs ≠ []) :
    (rollingMean w xs).getLastD RVal.nan = windowMean w xs (xs.length - 1) := by
  have hpos : 0 < xs.length := List.length_pos.mpr hne
  rw [rollingMean, List.getLastD_eq_getLast?, List.getLast?_eq_getElem?]
  simp only [List.length_map, List.length_range, List.getElem?_map]
  rw [List.getElem?_range (Nat.sub_lt hpos one_pos)]
  rfl

theorem calculate_rsi_getLastD (closes : List ℚ) :
    (calculate_rsi closes 14).getLastD RVal.nan =
      rsiPoint (RVal.divR ((gainSeries closes 14).getLastD RVal.nan)
        ((lossSeries closes 14).getLastD RVal.nan)) := by
  have hlen : (gainSeries closes 14).length = (lossSeries closes 14).length := by
    simp [gainSeries, lossSeries, rollingMean_length]
  calc (calculate_rsi closes 14).getLastD RVal.nan
      = ((List.zipWith RVal.divR (gainSeries closes 14) (lossSeries closes 14)).map
          rsiPoint).getLastD (rsiPoint (RVal.divR RVal.nan RVal.nan)) := rfl
    _ = rsiPoint ((List.zipWith RVal.divR (gainSeries closes 14)
          (lossSeries closes 14)).getLastD (RVal.divR RVal.nan RVal.nan)) :=
        getLastD_map rsiPoint _ _
    _ = rsiPoint (RVal.divR ((gainSeries closes 14).getLastD RVal.nan)
          ((lossSeries closes 14).getLastD RVal.nan)) := by
        rw [getLastD_zipWith RVal.divR _ _ hlen]

theorem gainSeries_getLastD_cases (closes : List ℚ) (hne : closes ≠ []) :
    (gainSeries closes 14).getLastD RVal.nan = RVal.nan ∨
      ∃ q, (gainSeries closes 14).getLastD RVal.nan = RVal.fin q ∧ 0 ≤ q := by
  have hne' : (diffList closes).map whereGt0 ≠ [] := by
    intro h
    apply hne
    have := congrArg List.length h
    simp only [List.length_map, diffList_length] at this
    exact List.length_eq_zero.mp this
  rw [gainSeries, rollingMean_getLastD _ _ hne']
  refine windowMean_cases _ _ _ fun x hx => ?_
  obtain ⟨v, -, rfl⟩ := List.mem_map.mp hx
  exact whereGt0_nonneg v

theorem rsi_name_mem_scoreSignals (b1 b2 b3 b4 b5 : Bool) :
    ("RSI in healthy range" ∈ (scoreSignals b1 b2 b3 b4 b5).1) ↔ b3 = true := by
  cases b1 <;> cases b2 <;> cases b3 <;> cases b4 <;> cases b5 <;> decide

theorem analyze_stock_signals (fetch : String → Option (List Bar)) (now sym : String)
    (hist : List Bar) (hf : fetch sym = some hist)
    (hcond : ¬(hist.isEmpty ∨ hist.length < 50)) :
    ∃ r, analyze_stock fetch now sym = some r ∧
      r.rsi = round2R ((calculate_rsi (hist.map Bar.close) 14).getLastD RVal.nan) ∧
      r.signals = (scoreSignals
        (priceRule ((hist.map Bar.close).getLastD 0)
          ((calculate_ema (hist.map Bar.close) 20).getLastD 0))
        (emaAlignRule ((calculate_ema (hist.map Bar.close) 20).getLastD 0)
          ((calculate_ema (hist.map Bar.close) 50).getLastD 0)
          ((calculate_ema (hist.map Bar.close) 200).getLastD 0))
        (rsiRule ((calculate_rsi (hist.map Bar.close) 14).getLastD RVal.nan))
        (macdRule ((calculate_macd (hist.map Bar.close)).1.getLastD 0)
          ((calculate_macd (hist.map Bar.close)).2.getLastD 0))
        (volumeRule ((hist.map Bar.volume).getLastD 0)
          (tailMean 20 (hist.map Bar.volume)))).1 := by
  simp only [analyze_stock, hf]
  rw [if_neg hcond]
  exact ⟨_, rfl, rfl, rfl⟩

set_option maxRecDepth 10000 in
/-- Counterexample to C5: for the 50-bar strictly increasing close
series the trailing 14-bar mean loss is zero, yet the latest RSI is not
NaN: pandas evaluates `gain/0` with `gain > 0` to `+inf`, so
`100 - 100/(1+inf) = 100`. The claim's assertion that the RSI value is
undefined/NaN is false on this input. -/
theorem C5_counterexample :
    (lossSeries (incBars.map Bar.close) 14).getLastD RVal.nan = RVal.fin 0 ∧
    (calculate_rsi (incBars.map Bar.close) 14).getLastD RVal.nan = RVal.fin 100 ∧
    RVal.fin (100 : ℚ) ≠ RVal.nan := by
  refine ⟨?_, ?_, ?_⟩ <;> with_unfolding_all decide

/-- C5 as amended: for a fetched series of at least 50 bars whose
trailing 14-bar mean loss is zero, the latest RSI is NaN if the trailing
mean gain is also zero and exactly 100 otherwise (never anything else);
in both cases the "RSI in healthy range" rule evaluates false and the
analysis still returns a result record (no crash) without that signal. -/
theorem C5_zero_mean_loss (fetch : String → Option (List Bar)) (now sym : String)
    (hist : List Bar) (hf : fetch sym = some hist) (hlen : 50 ≤ hist.length)
    (hloss : (lossSeries (hist.map Bar.close) 14).getLastD RVal.nan = RVal.fin 0) :
    rsiRule ((calculate_rsi (hist.map Bar.close) 14).getLastD RVal.nan) = false ∧
    ((calculate_rsi (hist.map Bar.close) 14).getLastD RVal.nan = RVal.nan ∨
      (calculate_rsi (hist.map Bar.close) 14).getLastD RVal.nan = RVal.fin 100) ∧
    ∃ r, analyze_stock fetch now sym = some r ∧ "RSI in healthy range" ∉ r.signals ∧
      (r.rsi = RVal.nan ∨ r.rsi = RVal.fin 100) := by
  have hne : hist.map Bar.close ≠ [] := by
    intro h
    have hL := congrArg List.length h
    simp only [List.length_map, List.length_nil] at hL
    omega
  have hcases : (calculate_rsi (hist.map Bar.close) 14).getLastD RVal.nan = RVal.nan ∨
      (calculate_rsi (hist.map Bar.close) 14).getLastD RVal.nan = RVal.fin 100 := by
    rw [calculate_rsi_getLastD, hloss]
    rcases gainSeries_getLastD_cases (hist.map Bar.close) hne with hg | ⟨q, hg, hq⟩
    · rw [hg]
      exact Or.inl rfl
    · rw [hg]
      by_cases hq0 : q = 0
      · subst hq0
        exact Or.inl (by with_unfolding_all decide)
      · have hqpos : (0 : ℚ) < q := lt_of_le_of_ne hq (Ne.symm hq0)
        have hdiv : RVal.divR (RVal.fin q) (RVal.fin 0) = RVal.inf := by
          show (if (0 : ℚ) = 0 then
              (if q = 0 then RVal.nan else if 0 < q then RVal.inf else RVal.ninf)
            else RVal.fin (q / 0)) = RVal.inf
          rw [if_pos rfl, if_neg hq0, if_pos hqpos]
        rw [hdiv]
        right
        show RVal.fin ((100 : ℚ) - 0) = RVal.fin 100
        norm_num
  have hrule : rsiRule ((calculate_rsi (hist.map Bar.close) 14).getLastD RVal.nan) = false := by
    rcases hcases with h | h <;> rw [h]
    · rfl
    · with_unfolding_all decide
  have hcond : ¬(hist.isEmpty ∨ hist.length < 50) := by
    rintro (h | h)
    · cases hist with
      | nil => simp at hlen
      | cons a l => simp [List.isEmpty] at h
    · omega
  obtain ⟨r, hr, hrsi, hsig⟩ := analyze_stock_signals fetch now sym hist hf hcond
  refine ⟨hrule, hcases, r, hr, ?_, ?_⟩
  · rw [hsig]
    rw [rsi_name_mem_scoreSignals]
    rw [hrule]
    exact Bool.false_ne_true
  · rw [hrsi]
    rcases hcases with h | h <;> rw [h]
    · exact Or.inl rfl
    · right
      show RVal.fin (round2 100) = RVal.fin 100
      have h100 : round2 (100 : ℚ) = 100 := by with_unfolding_all decide
      rw [h100]

set_option maxRecDepth 10000 in
theorem C5_witness :
    incFetch "X.NS" = some incBars ∧ 50 ≤ incBars.length ∧
    (lossSeries (incBars.map Bar.close) 14).getLastD RVal.nan = RVal.fin 0 ∧
    (rsiRule ((calculate_rsi (incBars.map Bar.close) 14).getLastD RVal.nan) = false ∧
     ((calculate_rsi (incBars.map Bar.close) 14).getLastD RVal.nan = RVal.nan ∨
       (calculate_rsi (incBars.map Bar.close) 14).getLastD RVal.nan = RVal.fin 100) ∧
     ∃ r, analyze_stock incFetch "t" "X.NS" = some r ∧
       "RSI in healthy range" ∉ r.signals ∧
       (r.rsi = RVal.nan ∨ r.rsi = RVal.fin 100)) :=
  ⟨rfl, by with_unfolding_all decide, by with_unfolding_all decide,
    C5_zero_mean_loss incFetch "t" "X.NS" incBars rfl
      (by with_unfolding_all decide) (by with_unfolding_all decide)⟩
